import Mathlib

set_option linter.unusedVariables false

/-!
# msse_memorymap: the offset reporter

A shallow embedding of `src/main.cpp`.  The program takes the address of the
global `reference_var` and the address of `main`, reinterprets both as
`std::intptr_t`, subtracts the former from the latter and writes one line to
standard output.

The pointer width `w` and the two addresses are parameters of the model: they
are fixed by the platform and the loader, not by the program.  Addresses are
natural numbers; `std::intptr_t` values are integers kept in the range
`[-2^(w-1), 2^(w-1))`, with arithmetic wrapping modulo `2^w`.  Standard output
is the list of characters written to it.
-/

namespace MemoryMap

/-! ## Pointer-width signed integers -/

/-- The value of the `std::intptr_t` whose bit pattern is `z` modulo `2^w`:
the representative of `z` in `[-2^(w-1), 2^(w-1))`. -/
def wrap (w : Nat) (z : Int) : Int :=
  if z % (2 : Int) ^ w < (2 : Int) ^ (w - 1) then z % (2 : Int) ^ w
  else z % (2 : Int) ^ w - (2 : Int) ^ w

/-- The cast `reinterpret_cast<std::intptr_t>(p)` of a pointer whose address
is `addr`: the same `w` bits read as a two's complement integer. -/
def reinterpret_cast (w : Nat) (addr : Nat) : Int :=
  wrap w (addr : Int)

/-- The subtraction `a - b` on `std::intptr_t`, wrapping modulo `2^w`. -/
def intptr_sub (w : Nat) (a b : Int) : Int :=
  wrap w (a - b)

/-! ## Formatted output of an integer

`std::ostream::operator<<` on a signed integer with the stream's default flags
(decimal base, no `showpos`, no grouping): the digits of the magnitude, most
significant first, produced by repeated division by ten, preceded by `-` when
the value is negative. -/

/-- The digit loop: writes the digit `v % 10` in front of `acc`, then goes on
with `v / 10` until nothing is left.  `fuel` bounds the number of rounds. -/
def digitsLoop : Nat → Nat → List Char → List Char
  | 0, _, acc => acc
  | fuel + 1, v, acc =>
    if v / 10 = 0 then Nat.digitChar (v % 10) :: acc
    else digitsLoop fuel (v / 10) (Nat.digitChar (v % 10) :: acc)

/-- The decimal digits of an unsigned magnitude. -/
def putNat (v : Nat) : List Char :=
  digitsLoop (v + 1) v []

/-- The text `operator<<` inserts for a signed integer. -/
def putInt (z : Int) : List Char :=
  if z < 0 then '-' :: putNat z.natAbs else putNat z.natAbs

/-! ## The program -/

/-- The string literal inserted first. -/
def banner : List Char := "Relative location of main: ".toList

/-- What `std::endl` inserts: a newline (the flush is not observable here). -/
def endl : List Char := ['\n']

/-- What a run leaves behind: the characters written to standard output, the
exit status of the process and the value of the global `reference_var`. -/
structure Outcome where
  stdout : List Char
  status : Int
  reference_var : Int
  deriving DecidableEq

/-- The function `main` of `src/main.cpp`.  `mainAddr` is the address of
`main`, `refAddr` the address of `reference_var`, `v` the value
`reference_var` holds when `main` starts.  Control reaches the closing brace
of `main` without a `return`, which is a `return 0`. -/
def main (w : Nat) (mainAddr refAddr : Nat) (argc : Int) (argv : List String)
    (v : Int) : Outcome :=
  let reference_var_address := reinterpret_cast w refAddr
  let main_address := reinterpret_cast w mainAddr
  let out := banner ++ putInt (intptr_sub w main_address reference_var_address) ++ endl
  { stdout := out, status := 0, reference_var := v }

/-! ## Reading the line back

The reader below follows the specification's description of the output: a
fixed text, a signed base-10 integer (digits, optionally preceded by `-`), a
newline. -/

/-- The value of a decimal digit character. -/
def digitValue (ch : Char) : Nat := ch.toNat - '0'.toNat

/-- Reads a non-empty string of decimal digits. -/
def parseNat (cs : List Char) : Option Nat :=
  if cs ≠ [] ∧ cs.all Char.isDigit then
    some (cs.foldl (fun a ch => a * 10 + digitValue ch) 0)
  else none

/-- Reads a signed base-10 integer: an optional `-`, then digits, and nothing
else. -/
def parseInt : List Char → Option Int
  | [] => none
  | ch :: cs =>
    if ch = '-' then (parseNat cs).map (fun n => -(n : Int))
    else (parseNat (ch :: cs)).map (fun n => (n : Int))

/-- Removes the fixed text in front and the newline at the end. -/
def stripFraming (out : List Char) : Option (List Char) :=
  if banner <+: out ∧ out.getLast? = some '\n' then
    some ((out.drop banner.length).dropLast)
  else none


/-! ## Arithmetic of `wrap` -/

theorem two_pow_split (w : Nat) (hw : 0 < w) :
    (2 : Int) ^ w = 2 * (2 : Int) ^ (w - 1) := by
  obtain ⟨k, rfl⟩ : ∃ k, w = k + 1 := ⟨w - 1, by omega⟩
  simp [pow_succ, mul_comm]

theorem wrap_emod (w : Nat) (z : Int) :
    wrap w z % (2 : Int) ^ w = z % (2 : Int) ^ w := by
  unfold wrap
  split
  · exact Int.emod_emod_of_dvd z (dvd_refl _)
  · rw [Int.sub_emod, Int.emod_self, sub_zero, Int.emod_emod_of_dvd _ (dvd_refl _),
      Int.emod_emod_of_dvd _ (dvd_refl _)]

theorem wrap_congr (w : Nat) (z z' : Int)
    (h : z % (2 : Int) ^ w = z' % (2 : Int) ^ w) : wrap w z = wrap w z' := by
  unfold wrap
  rw [h]

theorem wrap_range (w : Nat) (hw : 0 < w) (z : Int) :
    -(2 : Int) ^ (w - 1) ≤ wrap w z ∧ wrap w z < (2 : Int) ^ (w - 1) := by
  have hm : (0 : Int) < (2 : Int) ^ w := by positivity
  have h0 := Int.emod_nonneg z (ne_of_gt hm)
  have h1 := Int.emod_lt_of_pos z hm
  have hs := two_pow_split w hw
  unfold wrap
  generalize z % (2 : Int) ^ w = r at *
  generalize (2 : Int) ^ (w - 1) = p at *
  generalize (2 : Int) ^ w = m at *
  split <;> constructor <;> omega

theorem wrap_of_range (w : Nat) (hw : 0 < w) (z : Int)
    (hlo : -(2 : Int) ^ (w - 1) ≤ z) (hhi : z < (2 : Int) ^ (w - 1)) :
    wrap w z = z := by
  have hs := two_pow_split w hw
  have hp : (0 : Int) < (2 : Int) ^ (w - 1) := by positivity
  by_cases hz : 0 ≤ z
  · have hmod : z % (2 : Int) ^ w = z := Int.emod_eq_of_lt hz (by omega)
    unfold wrap
    rw [hmod, if_pos hhi]
  · have hmod : z % (2 : Int) ^ w = z + (2 : Int) ^ w := by
      rw [← Int.add_emod_self]
      exact Int.emod_eq_of_lt (by omega) (by omega)
    unfold wrap
    rw [hmod, if_neg (by omega)]
    omega

theorem sub_cast_eq (w e c : Nat) :
    intptr_sub w (reinterpret_cast w e) (reinterpret_cast w c) = wrap w ((e : Int) - (c : Int)) := by
  unfold intptr_sub reinterpret_cast
  apply wrap_congr
  rw [Int.sub_emod, wrap_emod, wrap_emod, ← Int.sub_emod]

theorem cast_of_lt (w e : Nat) (hw : 0 < w) (he : e < 2 ^ w) :
    reinterpret_cast w e = if e < 2 ^ (w - 1) then (e : Int) else (e : Int) - (2 : Int) ^ w := by
  have he' : (e : Int) < (2 : Int) ^ w := by exact_mod_cast he
  have hmod : (e : Int) % (2 : Int) ^ w = e := Int.emod_eq_of_lt (by omega) he'
  unfold reinterpret_cast wrap
  rw [hmod]
  by_cases h : e < 2 ^ (w - 1)
  · have h' : (e : Int) < (2 : Int) ^ (w - 1) := by exact_mod_cast h
    rw [if_pos h', if_pos h]
  · have h' : ¬ (e : Int) < (2 : Int) ^ (w - 1) := by
      intro hh
      exact h (by exact_mod_cast hh)
    rw [if_neg h', if_neg h]

/-! ## The digits -/

theorem digitChar_isDigit (d : Nat) (hd : d < 10) : (Nat.digitChar d).isDigit = true := by
  interval_cases d <;> decide

theorem digitValue_digitChar (d : Nat) (hd : d < 10) : digitValue (Nat.digitChar d) = d := by
  interval_cases d <;> decide

theorem digitsLoop_append (fuel v : Nat) (acc : List Char) :
    digitsLoop fuel v acc = digitsLoop fuel v [] ++ acc := by
  induction fuel generalizing v acc with
  | zero => simp [digitsLoop]
  | succ n ih =>
    unfold digitsLoop
    split
    · simp
    · rw [ih (v / 10) (Nat.digitChar (v % 10) :: acc), ih (v / 10) [Nat.digitChar (v % 10)]]
      simp

theorem digitsLoop_all_digits (fuel v : Nat) :
    ∀ ch ∈ digitsLoop fuel v [], ch.isDigit = true := by
  induction fuel generalizing v with
  | zero => simp [digitsLoop]
  | succ n ih =>
    intro ch hch
    unfold digitsLoop at hch
    split at hch
    · simp only [List.mem_singleton] at hch
      subst hch
      exact digitChar_isDigit _ (Nat.mod_lt _ (by decide))
    · rw [digitsLoop_append] at hch
      rcases List.mem_append.mp hch with h | h
      · exact ih _ ch h
      · simp only [List.mem_singleton] at h
        subst h
        exact digitChar_isDigit _ (Nat.mod_lt _ (by decide))

theorem digitsLoop_ne_nil (fuel v : Nat) : digitsLoop (fuel + 1) v [] ≠ [] := by
  unfold digitsLoop
  split
  · simp
  · rw [digitsLoop_append]
    simp

theorem digitsLoop_value (fuel v : Nat) (hv : v < fuel) :
    (digitsLoop fuel v []).foldl (fun a ch => a * 10 + digitValue ch) 0 = v := by
  induction fuel generalizing v with
  | zero => omega
  | succ n ih =>
    unfold digitsLoop
    split
    · rename_i h
      have hlt : v < 10 := by omega
      rw [Nat.mod_eq_of_lt hlt]
      simp [digitValue_digitChar v hlt]
    · rename_i h
      rw [digitsLoop_append, List.foldl_append, ih (v / 10) (by omega)]
      simp only [List.foldl_cons, List.foldl_nil]
      rw [digitValue_digitChar _ (Nat.mod_lt v (by decide))]
      omega

theorem digitsLoop_fuel (fuel fuel' v : Nat) (acc : List Char) (h : v < fuel)
    (h' : v < fuel') : digitsLoop fuel v acc = digitsLoop fuel' v acc := by
  induction fuel generalizing fuel' v acc with
  | zero => omega
  | succ n ih =>
    cases fuel' with
    | zero => omega
    | succ m =>
      unfold digitsLoop
      split
      · rfl
      · exact ih m (v / 10) _ (by omega) (by omega)

theorem putNat_all_digits (v : Nat) : ∀ ch ∈ putNat v, ch.isDigit = true :=
  digitsLoop_all_digits (v + 1) v

theorem putNat_ne_nil (v : Nat) : putNat v ≠ [] :=
  digitsLoop_ne_nil v v

theorem parseNat_putNat (v : Nat) : parseNat (putNat v) = some v := by
  unfold parseNat
  have hall : (putNat v).all Char.isDigit = true := by
    rw [List.all_eq_true]
    exact putNat_all_digits v
  rw [if_pos ⟨putNat_ne_nil v, hall⟩]
  exact congrArg some (digitsLoop_value (v + 1) v (by omega))

theorem isDigit_ne_minus (ch : Char) (h : ch.isDigit = true) : ch ≠ '-' := by
  rintro rfl
  exact absurd h (by decide)

theorem isDigit_ne_plus (ch : Char) (h : ch.isDigit = true) : ch ≠ '+' := by
  rintro rfl
  exact absurd h (by decide)

theorem isDigit_ne_newline (ch : Char) (h : ch.isDigit = true) : ch ≠ '\n' := by
  rintro rfl
  exact absurd h (by decide)

theorem parseInt_putInt (z : Int) : parseInt (putInt z) = some z := by
  unfold putInt
  by_cases hz : z < 0
  · rw [if_pos hz]
    simp only [parseInt, if_true, parseNat_putNat, Option.map_some']
    have hval : -((z.natAbs : Nat) : Int) = z := by omega
    exact congrArg some hval
  · rw [if_neg hz]
    obtain ⟨ch, cs, hcs⟩ : ∃ ch cs, putNat z.natAbs = ch :: cs := by
      cases h : putNat z.natAbs with
      | nil => exact absurd h (putNat_ne_nil _)
      | cons ch cs => exact ⟨ch, cs, rfl⟩
    have hne : ch ≠ '-' :=
      isDigit_ne_minus ch (putNat_all_digits z.natAbs ch (by rw [hcs]; simp))
    have hp := parseNat_putNat z.natAbs
    rw [hcs] at hp ⊢
    simp only [parseInt, if_neg hne, hp, Option.map_some']
    have hval : ((z.natAbs : Nat) : Int) = z := by omega
    exact congrArg some hval

theorem putInt_injective (a b : Int) (h : putInt a = putInt b) : a = b := by
  have := parseInt_putInt a
  rw [h, parseInt_putInt] at this
  exact (Option.some.inj this).symm

/-! ## The shape of the inserted number -/

theorem putInt_head (z : Int) : (putInt z).head? = some '-' ↔ z < 0 := by
  unfold putInt
  by_cases hz : z < 0
  · simp [hz]
  · rw [if_neg hz]
    constructor
    · intro h
      have hmem : '-' ∈ putNat z.natAbs := List.mem_of_mem_head? h
      exact absurd rfl (isDigit_ne_minus _ (putNat_all_digits _ _ hmem))
    · intro h
      exact absurd h hz

theorem putInt_mem_minus (z : Int) : '-' ∈ putInt z ↔ z < 0 := by
  unfold putInt
  by_cases hz : z < 0
  · simp [hz]
  · rw [if_neg hz]
    constructor
    · intro hmem
      exact absurd rfl (isDigit_ne_minus _ (putNat_all_digits _ _ hmem))
    · intro h
      exact absurd h hz

theorem putInt_no_plus (z : Int) : '+' ∉ putInt z := by
  unfold putInt
  intro hmem
  split at hmem
  · rcases List.mem_cons.mp hmem with h | h
    · exact absurd h (by decide)
    · exact absurd rfl (isDigit_ne_plus _ (putNat_all_digits _ _ h))
  · exact absurd rfl (isDigit_ne_plus _ (putNat_all_digits _ _ hmem))

theorem putInt_no_newline (z : Int) : '\n' ∉ putInt z := by
  unfold putInt
  intro hmem
  split at hmem
  · rcases List.mem_cons.mp hmem with h | h
    · exact absurd h (by decide)
    · exact absurd rfl (isDigit_ne_newline _ (putNat_all_digits _ _ h))
  · exact absurd rfl (isDigit_ne_newline _ (putNat_all_digits _ _ hmem))

theorem banner_no_newline : '\n' ∉ banner := by decide

theorem line_count_newline (z : Int) : (banner ++ putInt z ++ endl).count '\n' = 1 := by
  rw [List.count_append, List.count_append, List.count_eq_zero.mpr banner_no_newline,
    List.count_eq_zero.mpr (putInt_no_newline z)]
  rfl

theorem line_getLast (z : Int) : (banner ++ putInt z ++ endl).getLast? = some '\n' := by
  simp [endl]

theorem stripFraming_line (body : List Char) :
    stripFraming (banner ++ body ++ endl) = some body := by
  unfold stripFraming
  have hpre : banner <+: banner ++ body ++ endl := by
    rw [List.append_assoc]
    exact List.prefix_append _ _
  have hlast : (banner ++ body ++ endl).getLast? = some '\n' := by simp [endl]
  rw [if_pos ⟨hpre, hlast⟩, List.append_assoc, List.drop_left]
  simp [endl]

theorem main_stdout (w e c : Nat) (argc : Int) (argv : List String) (v : Int) :
    (main w e c argc argv v).stdout
      = banner ++ putInt (intptr_sub w (reinterpret_cast w e) (reinterpret_cast w c)) ++ endl :=
  rfl

/-! ## The printed value and the distance between the addresses -/

/-- C1 (as stated, refuted): with `main` at `0xFFFFFFFF80000000` and
`reference_var` at `6295600` on a 64-bit platform the program prints
`-2153779248`, not the distance `18446744071555772368` between the two
addresses. -/
theorem main_distance_counterexample :
    (main 64 18446744071562067968 6295600 1 ["memorymap"] 0).stdout
        = "Relative location of main: -2153779248\n".toList ∧
      (main 64 18446744071562067968 6295600 1 ["memorymap"] 0).stdout
        ≠ banner ++ putInt (((18446744071562067968 : Nat) : Int) - ((6295600 : Nat) : Int))
            ++ endl := by
  set_option maxRecDepth 100000 in decide

/-- C1 (amended): the integer `main` prints is the pointer-width signed
representative of the distance `e - c`: it lies in `[-2^(w-1), 2^(w-1))`, it is
congruent to `e - c` modulo `2^w`, and it equals `e - c` exactly when `e - c`
itself lies in `[-2^(w-1), 2^(w-1))`. -/
theorem main_prints_wrapped_distance (w e c : Nat) (hw : 0 < w) (argc : Int)
    (argv : List String) (v : Int) :
    ∃ off : Int,
      (main w e c argc argv v).stdout = banner ++ putInt off ++ endl ∧
      off = intptr_sub w (reinterpret_cast w e) (reinterpret_cast w c) ∧
      -(2 : Int) ^ (w - 1) ≤ off ∧ off < (2 : Int) ^ (w - 1) ∧
      off % (2 : Int) ^ w = ((e : Int) - (c : Int)) % (2 : Int) ^ w ∧
      (off = (e : Int) - (c : Int) ↔
        (-(2 : Int) ^ (w - 1) ≤ (e : Int) - (c : Int) ∧
          (e : Int) - (c : Int) < (2 : Int) ^ (w - 1))) := by
  refine ⟨_, main_stdout w e c argc argv v, rfl, ?_⟩
  rw [sub_cast_eq]
  have hr := wrap_range w hw ((e : Int) - (c : Int))
  refine ⟨hr.1, hr.2, wrap_emod w _, ?_⟩
  constructor
  · intro h
    rw [h] at hr
    exact hr
  · intro h
    exact wrap_of_range w hw _ h.1 h.2

/-- Witness for `main_prints_wrapped_distance`: 64-bit pointers, `main` at
`4198400`, `reference_var` at `6295600`. -/
theorem main_prints_wrapped_distance_witness :
    0 < 64 ∧
    ∃ off : Int,
      (main 64 4198400 6295600 1 ["memorymap"] 0).stdout = banner ++ putInt off ++ endl ∧
      off = intptr_sub 64 (reinterpret_cast 64 4198400) (reinterpret_cast 64 6295600) ∧
      -(2 : Int) ^ (64 - 1) ≤ off ∧ off < (2 : Int) ^ (64 - 1) ∧
      off % (2 : Int) ^ 64 = (((4198400 : Nat) : Int) - ((6295600 : Nat) : Int)) % (2 : Int) ^ 64 ∧
      (off = ((4198400 : Nat) : Int) - ((6295600 : Nat) : Int) ↔
        (-(2 : Int) ^ (64 - 1) ≤ ((4198400 : Nat) : Int) - ((6295600 : Nat) : Int) ∧
          ((4198400 : Nat) : Int) - ((6295600 : Nat) : Int) < (2 : Int) ^ (64 - 1))) :=
  ⟨by decide, main_prints_wrapped_distance 64 4198400 6295600 (by decide) 1 ["memorymap"] 0⟩

/-! ## The line written to standard output -/

/-- C2: the text `main` writes is the fixed text `Relative location of main: `,
then the decimal rendering of the offset, then one newline.  The newline is the
only one and comes last; the number starts with `-` exactly when the offset is
negative, contains no `+`, and apart from that sign is a non-empty run of
decimal digits. -/
theorem main_output_format (w e c : Nat) (argc : Int) (argv : List String) (v : Int) :
    ∃ (off : Int) (ds : List Char),
      off = intptr_sub w (reinterpret_cast w e) (reinterpret_cast w c) ∧
      (main w e c argc argv v).stdout
        = "Relative location of main: ".toList ++ putInt off ++ ['\n'] ∧
      (main w e c argc argv v).stdout.count '\n' = 1 ∧
      (main w e c argc argv v).stdout.getLast? = some '\n' ∧
      ((putInt off).head? = some '-' ↔ off < 0) ∧
      '+' ∉ putInt off ∧
      ds ≠ [] ∧ (∀ ch ∈ ds, ch.isDigit = true) ∧
      putInt off = (if off < 0 then '-' :: ds else ds) := by
  refine ⟨_, putNat (intptr_sub w (reinterpret_cast w e) (reinterpret_cast w c)).natAbs,
    rfl, rfl, ?_, ?_, putInt_head _, putInt_no_plus _, putNat_ne_nil _,
    putNat_all_digits _, rfl⟩
  · rw [main_stdout]
    exact line_count_newline _
  · rw [main_stdout]
    exact line_getLast _

/-- C3: removing the fixed text and the final newline from what `main` wrote
leaves exactly the rendering of the offset, and reading that back as a signed
base-10 integer gives the offset. -/
theorem main_output_parses (w e c : Nat) (argc : Int) (argv : List String) (v : Int) :
    stripFraming (main w e c argc argv v).stdout
        = some (putInt (intptr_sub w (reinterpret_cast w e) (reinterpret_cast w c))) ∧
      (stripFraming (main w e c argc argv v).stdout).bind parseInt
        = some (intptr_sub w (reinterpret_cast w e) (reinterpret_cast w c)) := by
  rw [main_stdout, stripFraming_line]
  exact ⟨rfl, parseInt_putInt _⟩

/-! ## Exit status, arguments and the value of `reference_var` -/

/-- C4: `main` completes with exit status 0 for every pair of addresses and
every argument list: the line is written in full, ending with its newline, and
the digit loop finishes within its budget of rounds (any larger budget produces
the same digits). -/
theorem main_status_zero (w e c : Nat) (argc : Int) (argv : List String) (v : Int) :
    (main w e c argc argv v).status = 0 ∧
      (main w e c argc argv v).stdout.getLast? = some '\n' ∧
      ∀ extra : Nat,
        digitsLoop
            ((intptr_sub w (reinterpret_cast w e) (reinterpret_cast w c)).natAbs + 1 + extra)
            (intptr_sub w (reinterpret_cast w e) (reinterpret_cast w c)).natAbs []
          = putNat (intptr_sub w (reinterpret_cast w e) (reinterpret_cast w c)).natAbs := by
  refine ⟨rfl, ?_, ?_⟩
  · rw [main_stdout]
    exact line_getLast _
  · intro extra
    exact digitsLoop_fuel _ _ _ [] (by omega) (Nat.lt_succ_self _)

/-- C5: with the same two addresses, two runs of `main` have the same outcome
whatever their command-line arguments are. -/
theorem main_ignores_arguments (w e c : Nat) (argc argc' : Int)
    (argv argv' : List String) (v : Int) :
    main w e c argc argv v = main w e c argc' argv' v :=
  rfl

/-- C8: `main` leaves the value of `reference_var` as it found it, and what it
prints and returns does not depend on that value. -/
theorem main_frame_reference_var (w e c : Nat) (argc : Int) (argv : List String)
    (v v' : Int) :
    (main w e c argc argv v).reference_var = v ∧
      (main w e c argc argv v).stdout = (main w e c argc argv v').stdout ∧
      (main w e c argc argv v).status = (main w e c argc argv v').status :=
  ⟨rfl, rfl, rfl⟩

/-! ## Sign of the printed value -/

/-- C6 (as stated, refuted): on a 64-bit platform, with `main` at `4096` and
`reference_var` at the higher address `2^63 + 8192`, the program prints the
positive number `9223372036854771712`; and with `main` at the higher address
`0xFFFFFFFF80000000` and `reference_var` at `6295600` it prints a negative
number. -/
theorem main_sign_counterexample :
    (4096 < 9223372036854784000 ∧
      (main 64 4096 9223372036854784000 1 ["memorymap"] 0).stdout
        = "Relative location of main: 9223372036854771712\n".toList) ∧
    (6295600 ≤ 18446744071562067968 ∧
      (main 64 18446744071562067968 6295600 1 ["memorymap"] 0).stdout
        = "Relative location of main: -2153779248\n".toList) := by
  set_option maxRecDepth 100000 in decide

/-- C6 (amended): when the distance between the two addresses fits the signed
pointer-width range, `-2^(w-1) ≤ e - c < 2^(w-1)`, the printed value is
negative, and its text has a `-` (in front), exactly when `reference_var` lies
at a strictly higher address than `main`; the text never has a `+`. -/
theorem main_sign_of_offset (w e c : Nat) (hw : 0 < w)
    (hlo : c ≤ e + 2 ^ (w - 1)) (hhi : e < c + 2 ^ (w - 1))
    (argc : Int) (argv : List String) (v : Int) :
    ∃ off : Int,
      (main w e c argc argv v).stdout = banner ++ putInt off ++ endl ∧
      off = (e : Int) - (c : Int) ∧
      (off < 0 ↔ e < c) ∧
      ((putInt off).head? = some '-' ↔ e < c) ∧
      ('-' ∈ putInt off ↔ e < c) ∧
      '+' ∉ putInt off := by
  have hlo' : ((c : Nat) : Int) ≤ (e : Int) + (2 : Int) ^ (w - 1) := by exact_mod_cast hlo
  have hhi' : ((e : Nat) : Int) < (c : Int) + (2 : Int) ^ (w - 1) := by exact_mod_cast hhi
  have hoff : intptr_sub w (reinterpret_cast w e) (reinterpret_cast w c)
      = (e : Int) - (c : Int) := by
    rw [sub_cast_eq]
    exact wrap_of_range w hw _ (by omega) (by omega)
  have hsign : ((e : Int) - (c : Int) < 0 ↔ e < c) := by omega
  refine ⟨(e : Int) - (c : Int), ?_, rfl, hsign, ?_, ?_, putInt_no_plus _⟩
  · rw [main_stdout, hoff]
  · rw [putInt_head]
    exact hsign
  · rw [putInt_mem_minus]
    exact hsign

/-- Witness for `main_sign_of_offset`: 64-bit pointers, `main` at `4198400`,
`reference_var` at `6295600`. -/
theorem main_sign_of_offset_witness :
    (0 < 64 ∧ 6295600 ≤ 4198400 + 2 ^ (64 - 1) ∧ 4198400 < 6295600 + 2 ^ (64 - 1)) ∧
    ∃ off : Int,
      (main 64 4198400 6295600 1 ["memorymap"] 0).stdout = banner ++ putInt off ++ endl ∧
      off = ((4198400 : Nat) : Int) - ((6295600 : Nat) : Int) ∧
      (off < 0 ↔ 4198400 < 6295600) ∧
      ((putInt off).head? = some '-' ↔ 4198400 < 6295600) ∧
      ('-' ∈ putInt off ↔ 4198400 < 6295600) ∧
      '+' ∉ putInt off :=
  ⟨by decide,
    main_sign_of_offset 64 4198400 6295600 (by decide) (by decide) (by decide)
      1 ["memorymap"] 0⟩

/-! ## Operands of the subtraction -/

/-- C7: the number `main` prints is the address of `main` minus the address of
`reference_var`, both read as pointer-width signed integers, the difference
being again a pointer-width signed integer; whenever the reversed difference is
a different number, it is not the one printed. -/
theorem main_offset_operands (w e c : Nat) (hw : 0 < w) (argc : Int)
    (argv : List String) (v : Int) :
    (main w e c argc argv v).stdout
        = banner ++ putInt (wrap w (reinterpret_cast w e - reinterpret_cast w c)) ++ endl ∧
      (-(2 : Int) ^ (w - 1) ≤ reinterpret_cast w e ∧
        reinterpret_cast w e < (2 : Int) ^ (w - 1)) ∧
      (-(2 : Int) ^ (w - 1) ≤ reinterpret_cast w c ∧
        reinterpret_cast w c < (2 : Int) ^ (w - 1)) ∧
      (-(2 : Int) ^ (w - 1) ≤ wrap w (reinterpret_cast w e - reinterpret_cast w c) ∧
        wrap w (reinterpret_cast w e - reinterpret_cast w c) < (2 : Int) ^ (w - 1)) ∧
      (wrap w (reinterpret_cast w e - reinterpret_cast w c)
          ≠ wrap w (reinterpret_cast w c - reinterpret_cast w e) →
        (main w e c argc argv v).stdout
          ≠ banner ++ putInt (wrap w (reinterpret_cast w c - reinterpret_cast w e)) ++ endl) := by
  refine ⟨rfl, wrap_range w hw _, wrap_range w hw _, wrap_range w hw _, ?_⟩
  intro hne heq
  rw [main_stdout] at heq
  have h1 := List.append_cancel_right heq
  have h2 := List.append_cancel_left h1
  exact hne (putInt_injective _ _ h2)

/-- Witness for `main_offset_operands`: 64-bit pointers, `main` at `4198400`,
`reference_var` at `6295600`; the line printed is the one with `-2097200`. -/
theorem main_offset_operands_witness :
    0 < 64 ∧
    (main 64 4198400 6295600 1 ["memorymap"] 0).stdout
      = "Relative location of main: -2097200\n".toList ∧
    (main 64 4198400 6295600 1 ["memorymap"] 0).stdout
      ≠ banner ++ putInt (wrap 64 (reinterpret_cast 64 6295600 - reinterpret_cast 64 4198400))
          ++ endl :=
  ⟨by decide, by set_option maxRecDepth 100000 in decide,
    (main_offset_operands 64 4198400 6295600 (by decide) 1 ["memorymap"] 0).2.2.2.2
      (by decide)⟩

/-! ## No overflow for addresses of the same sign -/

/-- C9: when the two addresses read as pointer-width signed integers have the
same sign, the subtraction in `main` does not overflow: the exact difference of
the two signed values lies strictly between `-2^(w-1)` and `2^(w-1)`, the
wrapped subtraction returns it unchanged, and it is the difference `e - c` of
the two addresses, which is the number printed. -/
theorem main_sub_no_overflow (w e c : Nat) (hw : 0 < w)
    (he : e < 2 ^ w) (hc : c < 2 ^ w)
    (hsign : reinterpret_cast w e < 0 ↔ reinterpret_cast w c < 0)
    (argc : Int) (argv : List String) (v : Int) :
    -(2 : Int) ^ (w - 1) < reinterpret_cast w e - reinterpret_cast w c ∧
      reinterpret_cast w e - reinterpret_cast w c < (2 : Int) ^ (w - 1) ∧
      intptr_sub w (reinterpret_cast w e) (reinterpret_cast w c)
        = reinterpret_cast w e - reinterpret_cast w c ∧
      reinterpret_cast w e - reinterpret_cast w c = (e : Int) - (c : Int) ∧
      (main w e c argc argv v).stdout
        = banner ++ putInt ((e : Int) - (c : Int)) ++ endl := by
  have hs := two_pow_split w hw
  have hp : (0 : Int) < (2 : Int) ^ (w - 1) := by positivity
  have he' : ((e : Nat) : Int) < (2 : Int) ^ w := by exact_mod_cast he
  have hc' : ((c : Nat) : Int) < (2 : Int) ^ w := by exact_mod_cast hc
  have hce := cast_of_lt w e hw he
  have hcc := cast_of_lt w c hw hc
  have hpe : (e < 2 ^ (w - 1)) ↔ ((e : Int) < (2 : Int) ^ (w - 1)) := by
    constructor <;> intro h <;> exact_mod_cast h
  have hpc : (c < 2 ^ (w - 1)) ↔ ((c : Int) < (2 : Int) ^ (w - 1)) := by
    constructor <;> intro h <;> exact_mod_cast h
  have hdiff : reinterpret_cast w e - reinterpret_cast w c = (e : Int) - (c : Int) ∧
      -(2 : Int) ^ (w - 1) < (e : Int) - (c : Int) ∧
      (e : Int) - (c : Int) < (2 : Int) ^ (w - 1) := by
    rw [hce, hcc] at hsign ⊢
    by_cases h1 : e < 2 ^ (w - 1) <;> by_cases h2 : c < 2 ^ (w - 1)
    · have h1' := hpe.mp h1
      have h2' := hpc.mp h2
      rw [if_pos h1, if_pos h2]
      refine ⟨rfl, ?_, ?_⟩ <;> omega
    · have h1' := hpe.mp h1
      have h2' := fun h => h2 (hpc.mpr h)
      rw [if_pos h1, if_neg h2] at hsign
      exact absurd (hsign.mpr (by omega)) (by omega)
    · have h1' := fun h => h1 (hpe.mpr h)
      have h2' := hpc.mp h2
      rw [if_neg h1, if_pos h2] at hsign
      exact absurd (hsign.mp (by omega)) (by omega)
    · have h1' := fun h => h1 (hpe.mpr h)
      have h2' := fun h => h2 (hpc.mpr h)
      rw [if_neg h1, if_neg h2]
      refine ⟨by ring, ?_, ?_⟩ <;> omega
  obtain ⟨hd, hlo, hhi⟩ := hdiff
  have hsub : intptr_sub w (reinterpret_cast w e) (reinterpret_cast w c)
      = (e : Int) - (c : Int) := by
    rw [sub_cast_eq]
    exact wrap_of_range w hw _ (le_of_lt hlo) hhi
  refine ⟨by rw [hd]; exact hlo, by rw [hd]; exact hhi, by rw [hsub, hd], hd, ?_⟩
  rw [main_stdout, hsub]

/-- Witness for `main_sub_no_overflow`: 64-bit pointers, both addresses in the
lower half of the address space. -/
theorem main_sub_no_overflow_witness :
    (0 < 64 ∧ 4198400 < 2 ^ 64 ∧ 6295600 < 2 ^ 64 ∧
      (reinterpret_cast 64 4198400 < 0 ↔ reinterpret_cast 64 6295600 < 0)) ∧
    (-(2 : Int) ^ (64 - 1) < reinterpret_cast 64 4198400 - reinterpret_cast 64 6295600 ∧
      reinterpret_cast 64 4198400 - reinterpret_cast 64 6295600 < (2 : Int) ^ (64 - 1) ∧
      intptr_sub 64 (reinterpret_cast 64 4198400) (reinterpret_cast 64 6295600)
        = reinterpret_cast 64 4198400 - reinterpret_cast 64 6295600 ∧
      reinterpret_cast 64 4198400 - reinterpret_cast 64 6295600
        = ((4198400 : Nat) : Int) - ((6295600 : Nat) : Int) ∧
      (main 64 4198400 6295600 1 ["memorymap"] 0).stdout
        = banner ++ putInt (((4198400 : Nat) : Int) - ((6295600 : Nat) : Int)) ++ endl) :=
  ⟨by decide,
    main_sub_no_overflow 64 4198400 6295600 (by decide) (by decide) (by decide) (by decide)
      1 ["memorymap"] 0⟩

/-! ## Relocation -/

/-- C10: sliding both addresses by the same amount `d`, modulo `2^w`, does not
change the outcome of `main`: the same line is printed. -/
theorem main_relocation_invariant (w e c d : Nat) (argc : Int) (argv : List String)
    (v : Int) :
    main w ((e + d) % 2 ^ w) ((c + d) % 2 ^ w) argc argv v = main w e c argc argv v := by
  have hoff : intptr_sub w (reinterpret_cast w ((e + d) % 2 ^ w))
      (reinterpret_cast w ((c + d) % 2 ^ w))
      = intptr_sub w (reinterpret_cast w e) (reinterpret_cast w c) := by
    rw [sub_cast_eq, sub_cast_eq]
    apply wrap_congr
    push_cast
    rw [Int.sub_emod, Int.emod_emod_of_dvd _ (dvd_refl _), Int.emod_emod_of_dvd _ (dvd_refl _),
      ← Int.sub_emod]
    congr 1
    ring
  unfold main
  simp only [hoff]

end MemoryMap
